import Mathlib

/-!
Verification development for the phalcon-mcp repository (phalcon_mcp_server.py).

The core under verification is the Cursor store-discovery and query layer:
`CursorDBManager` (registry state, `refresh_db_paths`, `list_projects`,
`execute_query`, the well-known-key recipes) and the MCP boundary wrappers
(`query_table`, `refresh_databases`, the three resource handlers).

Shallow embedding conventions:
- The filesystem and the SQLite store files are modelled abstractly by the
  structure `FS`: path existence, directory listing, file reading and
  resolution are opaque functions, and a store file is a pair of tables,
  each a list of `(key, value)` text rows in store-native order.
- Python exceptions become `Except QErr`; `ValueError` is `QErr.valueError`,
  `sqlite3.Error` is `QErr.sqliteError`, other dynamic-type faults
  (`TypeError` etc.) are `QErr.otherError`.
- `json.loads` is modelled by the executable parser `loads` below
  (objects, arrays, strings with escapes, integer and symbolic non-integer
  numbers, the constants accepted by Python's json module).
- SQLite's `LIKE` operator is modelled by `likeMatch`: `%` matches any
  sequence, `_` one character, and ordinary characters compare with
  ASCII case folding, which is SQLite's documented default.
-/

/-- JSON values as produced by `json.loads`. Non-integer numeric literals are
kept symbolically (`fnum` carries the raw token) because floating-point
values play no role in any verified property. -/
inductive Json where
  | null : Json
  | bool : Bool → Json
  | num : Int → Json
  | fnum : String → Json
  | str : String → Json
  | arr : List Json → Json
  | obj : List (String × Json) → Json

/-- The left brace character, written via its code point. -/
def lbrace : Char := Char.ofNat 123

/-- The right brace character, written via its code point. -/
def rbrace : Char := Char.ofNat 125

/-- Skip JSON whitespace (space, tab, newline, carriage return). -/
def skipWs : List Char → List Char
  | [] => []
  | c :: rest =>
    if c = ' ' ∨ c = '\t' ∨ c = '\n' ∨ c = '\r' then skipWs rest else c :: rest

/-- Value of a hexadecimal digit. -/
def hexVal (c : Char) : Option Nat :=
  if '0' ≤ c ∧ c ≤ '9' then some (c.toNat - 48)
  else if 'a' ≤ c ∧ c ≤ 'f' then some (c.toNat - 87)
  else if 'A' ≤ c ∧ c ≤ 'F' then some (c.toNat - 55)
  else none

/-- Single-character JSON string escapes. -/
def escChar (c : Char) : Option Char :=
  if c = '"' then some '"'
  else if c = '\\' then some '\\'
  else if c = '/' then some '/'
  else if c = 'b' then some (Char.ofNat 8)
  else if c = 'f' then some (Char.ofNat 12)
  else if c = 'n' then some '\n'
  else if c = 'r' then some '\r'
  else if c = 't' then some '\t'
  else none

/-- Parse the characters of a JSON string after the opening quote, returning
the decoded content and the remainder after the closing quote. Unescaped
control characters are rejected, as in Python's strict mode. -/
def parseStrChars : Nat → List Char → Option (List Char × List Char)
  | 0, _ => none
  | _ + 1, [] => none
  | f + 1, c :: rest =>
    if c = '"' then some ([], rest)
    else if c = '\\' then
      match rest with
      | [] => none
      | e :: rest2 =>
        if e = 'u' then
          match rest2 with
          | h1 :: h2 :: h3 :: h4 :: rest3 =>
            match hexVal h1, hexVal h2, hexVal h3, hexVal h4 with
            | some a, some b, some c2, some d =>
              (parseStrChars f rest3).map
                (fun pr => (Char.ofNat (((a * 16 + b) * 16 + c2) * 16 + d) :: pr.1, pr.2))
            | _, _, _, _ => none
          | _ => none
        else
          match escChar e with
          | some ec => (parseStrChars f rest2).map (fun pr => (ec :: pr.1, pr.2))
          | none => none
    else if c.toNat < 32 then none
    else (parseStrChars f rest).map (fun pr => (c :: pr.1, pr.2))

/-- Take the maximal run of decimal digits. -/
def spanDigits : List Char → List Char × List Char
  | [] => ([], [])
  | c :: t =>
    if c.isDigit then
      let pr := spanDigits t
      (c :: pr.1, pr.2)
    else ([], c :: t)

/-- Numeric value of a digit run. -/
def digitsToNat (acc : Nat) : List Char → Nat
  | [] => acc
  | c :: t => digitsToNat (acc * 10 + (c.toNat - 48)) t

/-- Boolean list-prefix test on characters. -/
def startsWith : List Char → List Char → Bool
  | [], _ => true
  | _ :: _, [] => false
  | a :: as2, b :: bs => (a == b) && startsWith as2 bs

/-- Consume an expected literal character sequence. -/
def expectLit (lit rest : List Char) : Option (List Char) :=
  if startsWith lit rest then some (rest.drop lit.length) else none

/-- Parse a JSON number following Python's json scanner: optional sign,
integer part without leading zeros, optional fraction and exponent, matched
maximally. Pure integer literals decode to `Json.num`; any literal with a
fraction or exponent is kept symbolically as `Json.fnum`. -/
def parseNum (input : List Char) : Option (Json × List Char) :=
  let pr0 : Bool × List Char :=
    match input with
    | c :: t => if c = '-' then (true, t) else (false, input)
    | [] => (false, input)
  let neg := pr0.1
  match pr0.2 with
  | [] => none
  | c :: t =>
    if ¬ c.isDigit then none
    else
      let ip : List Char × List Char :=
        if c = '0' then ([c], t)
        else
          let pr := spanDigits t
          (c :: pr.1, pr.2)
      let fp : List Char × List Char :=
        match ip.2 with
        | '.' :: t2 =>
          let pr := spanDigits t2
          if pr.1.isEmpty then ([], ip.2) else ('.' :: pr.1, pr.2)
        | _ => ([], ip.2)
      let ep : List Char × List Char :=
        match fp.2 with
        | e :: t2 =>
          if e = 'e' ∨ e = 'E' then
            match t2 with
            | s2 :: t3 =>
              if s2 = '+' ∨ s2 = '-' then
                let pr := spanDigits t3
                if pr.1.isEmpty then ([], fp.2) else (e :: s2 :: pr.1, pr.2)
              else
                let pr := spanDigits t2
                if pr.1.isEmpty then ([], fp.2) else (e :: pr.1, pr.2)
            | [] => ([], fp.2)
          else ([], fp.2)
        | [] => ([], fp.2)
      if fp.1.isEmpty ∧ ep.1.isEmpty then
        let n : Int := Int.ofNat (digitsToNat 0 ip.1)
        some (Json.num (if neg then -n else n), ip.2)
      else
        let tok := (if neg then ['-'] else []) ++ ip.1 ++ fp.1 ++ ep.1
        some (Json.fnum (String.mk tok), ep.2)

mutual

/-- Fueled recursive-descent parser for one JSON value. -/
def parseVal : Nat → List Char → Option (Json × List Char)
  | 0, _ => none
  | f + 1, input =>
    match skipWs input with
    | [] => none
    | c :: rest =>
      if c = lbrace then parseObjBody f rest true []
      else if c = '[' then parseArrBody f rest true []
      else if c = '"' then
        (parseStrChars (rest.length + 1) rest).map
          (fun pr => (Json.str (String.mk pr.1), pr.2))
      else if c = 't' then
        (expectLit ['r', 'u', 'e'] rest).map (fun r => (Json.bool true, r))
      else if c = 'f' then
        (expectLit ['a', 'l', 's', 'e'] rest).map (fun r => (Json.bool false, r))
      else if c = 'n' then
        (expectLit ['u', 'l', 'l'] rest).map (fun r => (Json.null, r))
      else if c = 'N' then
        (expectLit ['a', 'N'] rest).map (fun r => (Json.fnum "NaN", r))
      else if c = 'I' then
        (expectLit ['n', 'f', 'i', 'n', 'i', 't', 'y'] rest).map
          (fun r => (Json.fnum "Infinity", r))
      else if c = '-' ∧ startsWith ['I'] rest then
        (expectLit ['I', 'n', 'f', 'i', 'n', 'i', 't', 'y'] rest).map
          (fun r => (Json.fnum "-Infinity", r))
      else parseNum (c :: rest)

/-- Parse the members of a JSON object after the opening brace (`first` marks
whether no member has been consumed yet, allowing the empty object). -/
def parseObjBody : Nat → List Char → Bool → List (String × Json) →
    Option (Json × List Char)
  | 0, _, _, _ => none
  | f + 1, input, first, acc =>
    let r1 := skipWs input
    if first ∧ startsWith [rbrace] r1 then some (Json.obj acc.reverse, r1.drop 1)
    else
      match r1 with
      | '"' :: rest =>
        match parseStrChars (rest.length + 1) rest with
        | none => none
        | some pr =>
          match skipWs pr.2 with
          | ':' :: rest2 =>
            match parseVal f rest2 with
            | none => none
            | some pv =>
              let acc2 := (String.mk pr.1, pv.1) :: acc
              match skipWs pv.2 with
              | ',' :: rest3 => parseObjBody f rest3 false acc2
              | c2 :: rest3 =>
                if c2 = rbrace then some (Json.obj acc2.reverse, rest3) else none
              | [] => none
          | _ => none
      | _ => none

/-- Parse the elements of a JSON array after the opening bracket. -/
def parseArrBody : Nat → List Char → Bool → List Json → Option (Json × List Char)
  | 0, _, _, _ => none
  | f + 1, input, first, acc =>
    let r1 := skipWs input
    if first ∧ startsWith [']'] r1 then some (Json.arr acc.reverse, r1.drop 1)
    else
      match parseVal f r1 with
      | none => none
      | some pv =>
        let acc2 := pv.1 :: acc
        match skipWs pv.2 with
        | ',' :: rest2 => parseArrBody f rest2 false acc2
        | ']' :: rest2 => some (Json.arr acc2.reverse, rest2)
        | _ => none

end

/-- Model of `json.loads`: parse one JSON document and require that only
whitespace remains, else fail (Python raises `JSONDecodeError`). -/
def loads (s : String) : Option Json :=
  match parseVal (2 * s.data.length + 8) s.data with
  | some pr => if (skipWs pr.2).isEmpty then some pr.1 else none
  | none => none

/-- Look up a key in a JSON object the way Python's `dict.get` sees it:
`json.loads` keeps the last occurrence of a duplicated key. -/
def objGet (fields : List (String × Json)) (k : String) : Option Json :=
  (fields.filter (fun f => f.1 = k)).getLast?.map (fun f => f.2)

/-- One discovered project, mirroring the dict built by
`CursorDBManager.detect_cursor_projects` (fields `name`, `db_path`,
`workspace_dir`, `folder_uri`). -/
structure ProjectInfo where
  name : String
  db_path : String
  workspace_dir : Option String
  folder_uri : Option String
deriving DecidableEq

/-- Content of one `state.vscdb` store file: the two logical tables, each a
list of `(key, value)` text rows in store-native order. -/
structure Store where
  itemTable : List (String × String)
  cursorDiskKV : List (String × String)

/-- Abstract filesystem / storage layer. `pathExists`, `isDir`, `listDir`,
`readFile` and `resolve` model the `pathlib` operations used by the source;
`dbFile` models opening a SQLite store at a path (`none` means the file is
missing or unreadable as a database, which surfaces as `sqlite3.Error`). -/
structure FS where
  pathExists : String → Bool
  isDir : String → Bool
  listDir : String → List String
  readFile : String → Option String
  resolve : String → String
  dbFile : String → Option Store

/-- In-memory state of `CursorDBManager`: configuration (`cursor_path`,
`project_dirs`) plus registry state (`db_paths`, `projects_info`,
`global_db_path`). The two maps are Python dicts, modelled as
insertion-ordered association lists. -/
structure ManagerState where
  cursor_path : Option String
  project_dirs : List String
  db_paths : List (String × String)
  projects_info : List (String × ProjectInfo)
  global_db_path : Option String

/-- Python dict assignment `d[k] = v`: overwrite in place if the key is
present, else append. -/
def dictInsert {α : Type} (k : String) (v : α) : List (String × α) → List (String × α)
  | [] => [(k, v)]
  | (k2, v2) :: rest =>
    if k2 = k then (k, v) :: rest else (k2, v2) :: dictInsert k v rest

/-- Strip trailing `/` characters, as `folder_uri.rstrip('/')` does. -/
def rstripSlash (s : String) : String :=
  String.mk (s.data.reverse.dropWhile (fun c => c = '/')).reverse

/-- The segment after the last `/` (the whole string if there is none):
`s.split('/')[-1]`. -/
def lastSeg (s : String) : String :=
  String.mk (s.data.reverse.takeWhile (fun c => c ≠ '/')).reverse

/-- Project-name derivation from a workspace folder URI:
`folder_uri.rstrip('/').split('/')[-1]`. -/
def nameFromUri (s : String) : String :=
  lastSeg (rstripSlash s)

/-- `pathlib.Path(p).name`: the final path component, empty for a root. -/
def baseName (p : String) : String :=
  lastSeg (rstripSlash p)

/-- `CursorDBManager.detect_cursor_projects`: scan
`cursor_path/workspaceStorage`; a subdirectory yields a project exactly when
it is a directory holding both `workspace.json` and `state.vscdb`, its
descriptor parses as a JSON object, and the object's `folder` entry is a
truthy string. Any failure along the way skips the entry, never fails. -/
def detect_cursor_projects (cp : String) (fs : FS) : List ProjectInfo :=
  if ¬ fs.pathExists cp then []
  else
    let ws := cp ++ "/workspaceStorage"
    if ¬ fs.pathExists ws then []
    else
      (fs.listDir ws).filterMap (fun d =>
        if ¬ fs.isDir d then none
        else if fs.pathExists (d ++ "/workspace.json") ∧ fs.pathExists (d ++ "/state.vscdb") then
          match fs.readFile (d ++ "/workspace.json") with
          | none => none
          | some content =>
            match loads content with
            | some (Json.obj fields) =>
              match objGet fields "folder" with
              | some (Json.str uri) =>
                if uri = "" then none
                else some ⟨nameFromUri uri, d ++ "/state.vscdb", some d, some uri⟩
              | some _ => none
              | none => none
            | _ => none
        else none)

/-- Path of the global storage store under a root. -/
def globalPath (cp : String) : String :=
  cp ++ "/globalStorage/state.vscdb"

/-- Fold step adding one scanned project to the registry maps. -/
def scanStep (acc : ManagerState) (p : ProjectInfo) : ManagerState :=
  { acc with
    db_paths := dictInsert p.name p.db_path acc.db_paths
    projects_info := dictInsert p.name p acc.projects_info }

/-- Fold step adding one explicitly configured project directory: resolve it,
require `state.vscdb` inside, and register under the directory's base name
(a missing store only logs a warning and contributes nothing). -/
def explStep (fs : FS) (acc : ManagerState) (dir : String) : ManagerState :=
  let pp := fs.resolve dir
  let dbp := pp ++ "/state.vscdb"
  if fs.pathExists dbp then
    let nm := baseName pp
    { acc with
      db_paths := dictInsert nm dbp acc.db_paths
      projects_info := dictInsert nm ⟨nm, dbp, none, none⟩ acc.projects_info }
  else acc

/-- `CursorDBManager.refresh_db_paths`: empty both maps, register scanned
projects when a root is configured, record the global store path when it
exists (note: it is never reset when absent), then register the explicit
directories. -/
def refresh_db_paths (st : ManagerState) (fs : FS) : ManagerState :=
  let st0 := { st with db_paths := [], projects_info := [] }
  let st1 :=
    match st0.cursor_path with
    | none => st0
    | some cp =>
      let st2 := (detect_cursor_projects cp fs).foldl scanStep st0
      if fs.pathExists (globalPath cp) then
        { st2 with global_db_path := some (globalPath cp) }
      else st2
  st1.project_dirs.foldl (explStep fs) st1

/-- `CursorDBManager.__init__`: fields initialised (maps empty, no global
path), then `refresh_db_paths` runs. The platform-default root resolution is
folded into the `cursor_path` argument. -/
def initManager (cursor_path : Option String) (project_dirs : List String)
    (fs : FS) : ManagerState :=
  refresh_db_paths ⟨cursor_path, project_dirs, [], [], none⟩ fs

/-- Output of `list_projects`, which returns either the flat or the detailed
map depending on `detailed`. -/
inductive Listing where
  | flat : List (String × String) → Listing
  | detailed : List (String × ProjectInfo) → Listing

/-- `CursorDBManager.list_projects`: pure read of in-memory state. -/
def list_projects (st : ManagerState) (detailed : Bool) : Listing :=
  if detailed then Listing.detailed st.projects_info else Listing.flat st.db_paths

/-- ASCII case folding: SQLite's default `LIKE` folds `A`-`Z` to lower case
and compares all other characters exactly. -/
def lowerA (c : Char) : Char :=
  if 'A' ≤ c ∧ c ≤ 'Z' then Char.ofNat (c.toNat + 32) else c

/-- Fueled SQLite `LIKE` matcher: `%` matches any sequence, `_` exactly one
character, other characters compare under ASCII case folding. -/
def likeMF : Nat → List Char → List Char → Bool
  | 0, _, _ => false
  | _ + 1, [], s => s.isEmpty
  | f + 1, p :: ps, s =>
    if p = '%' then
      likeMF f ps s ||
        (match s with
         | [] => false
         | _ :: s2 => likeMF f (p :: ps) s2)
    else
      match s with
      | [] => false
      | c :: s2 =>
        if p = '_' then likeMF f ps s2
        else (lowerA p == lowerA c) && likeMF f ps s2

/-- SQLite `LIKE` on character lists, with enough fuel to be total. -/
def likeM (pat s : List Char) : Bool :=
  likeMF (pat.length + s.length + 1) pat s

/-- SQLite `text LIKE pattern` on strings. -/
def likeMatch (pat s : String) : Bool :=
  likeM pat.data s.data

/-- SQLite `LIMIT n`: a negative bound means no limit. -/
def limitTake {α : Type} (limit : Int) (l : List α) : List α :=
  if limit < 0 then l else l.take limit.toNat

/-- Python exceptions crossing the layers of the source: `ValueError`,
`sqlite3.Error`, and other dynamic faults such as `TypeError`. -/
inductive QErr where
  | valueError : String → QErr
  | sqliteError : String → QErr
  | otherError : String → QErr
deriving DecidableEq

/-- A returned row value: either a decoded JSON document or the raw text. -/
inductive QVal where
  | json : Json → QVal
  | str : String → QVal

/-- One normalized result row (`{"key": ..., "value": ...}`). -/
structure QRecord where
  key : String
  value : QVal

/-- Per-row normalization in `execute_query`: try `json.loads` on the stored
text, fall back to the raw text on decode failure. Total by construction. -/
def decodeRow (r : String × String) : QRecord :=
  match loads r.2 with
  | some j => ⟨r.1, QVal.json j⟩
  | none => ⟨r.1, QVal.str r.2⟩

/-- Select the logical table of a store by name. -/
def tableOf (s : Store) (t : String) : List (String × String) :=
  if t = "ItemTable" then s.itemTable else s.cursorDiskKV

/-- Python truthiness of the optional `key` argument: present and non-empty. -/
def keyTruthy (key : Option String) : Bool :=
  match key with
  | none => false
  | some s => !(s == "")

/-- Run one `cursor.execute` against a store file: the storage fault of a
missing or unreadable store surfaces here (`sqlite3.connect` is lazy, so in
the source the error is raised by `execute`, inside the dispatch branch). -/
def runSelect (conn : Option Store) (table_name : String)
    (sel : List (String × String) → List (String × String)) :
    Except QErr (List QRecord) :=
  match conn with
  | none => .error (.sqliteError ("no such table: " ++ table_name))
  | some store => .ok ((sel (tableOf store table_name)).map decodeRow)

/-- `CursorDBManager.execute_query`: project lookup, table-name validation,
then the three query shapes (`get_all` limited, `get_by_key` unlimited exact
match, `search_keys` a limited `LIKE '%key%'` scan — note the `and key`
truthiness guards) each executing against the lazily opened store, else
`ValueError` without any store access; then per-row JSON normalization. -/
def execute_query (st : ManagerState) (fs : FS) (project_name table_name
    query_type : String) (key : Option String) (limit : Int) :
    Except QErr (List QRecord) :=
  match List.lookup project_name st.db_paths with
  | none => .error (.valueError ("Project " ++ project_name ++ " not found"))
  | some db_path =>
    if ¬ (table_name = "ItemTable" ∨ table_name = "cursorDiskKV") then
      .error (.valueError "Table name must be either ItemTable or cursorDiskKV")
    else
      let conn := fs.dbFile db_path
      if query_type = "get_all" then
        runSelect conn table_name (fun tbl => limitTake limit tbl)
      else if query_type = "get_by_key" ∧ keyTruthy key then
        runSelect conn table_name (fun tbl =>
          tbl.filter (fun r => r.1 = key.getD ""))
      else if query_type = "search_keys" ∧ keyTruthy key then
        runSelect conn table_name (fun tbl =>
          limitTake limit (tbl.filter
            (fun r => likeMatch ("%" ++ key.getD "" ++ "%") r.1)))
      else
        .error (.valueError "Invalid query type or missing key parameter")

/-- A value that `get_chat_data` / `get_composer_ids` may return without
raising: either real data or Python's soft `{"error": ...}` dict. -/
inductive SoftVal where
  | val : QVal → SoftVal
  | errObj : String → SoftVal

/-- `CursorDBManager.get_chat_data`: project check, then `get_by_key` on
`ItemTable` with the fixed chat key; the first match's value, or a soft
error dict when nothing matched. Exceptions propagate (the source logs and
re-raises). -/
def get_chat_data (st : ManagerState) (fs : FS) (project_name : String) :
    Except QErr SoftVal :=
  match List.lookup project_name st.db_paths with
  | none => .error (.valueError ("Project " ++ project_name ++ " not found"))
  | some _ =>
    match execute_query st fs project_name "ItemTable" "get_by_key"
        (some "workbench.panel.aichat.view.aichat.chatdata") 100 with
    | .error e => .error e
    | .ok [] => .ok (.errObj "No chat data found for this project")
    | .ok (r :: _) => .ok (.val r.value)

/-- Case-sensitive substring occurrence on character lists. -/
def occursIn (needle : List Char) : List Char → Bool
  | [] => startsWith needle []
  | c :: t => startsWith needle (c :: t) || occursIn needle t

/-- Case-sensitive substring test on strings (Python `needle in hay`). -/
def substrCS (needle hay : String) : Bool :=
  occursIn needle.data hay.data

/-- Python `needle in container` on a decoded value: key test on dicts,
substring on strings, membership on lists; anything else is a `TypeError`. -/
def pyContains (needle : String) (v : QVal) : Except QErr Bool :=
  match v with
  | .json (Json.obj fields) => .ok (fields.any (fun f => f.1 = needle))
  | .json (Json.arr xs) =>
    .ok (xs.any (fun x => match x with | Json.str s => s = needle | _ => false))
  | .json (Json.str s) => .ok (substrCS needle s)
  | .str s => .ok (substrCS needle s)
  | .json _ => .error (.otherError "argument of type is not iterable")

/-- Result of `get_composer_ids` when it does not raise: the extracted
identifier list (each appended value is an arbitrary decoded member) plus
the full decoded data, or the soft error dict. -/
inductive ComposerIds where
  | ids : List Json → QVal → ComposerIds
  | errObj : String → ComposerIds

/-- One iteration of `for composer in allComposers`: Python membership test
`"composerId" in composer` followed by indexing. Dict members yield their
`composerId` entry; strings whose text contains `composerId` fail on string
indexing; other member shapes follow Python's dynamic rules. -/
def composerOf (member : Json) : Except QErr (Option Json) :=
  match member with
  | Json.obj fields =>
    match objGet fields "composerId" with
    | some v => .ok (some v)
    | none => .ok none
  | Json.str s =>
    if substrCS "composerId" s then
      .error (.otherError "string indices must be integers")
    else .ok none
  | Json.arr xs =>
    if xs.any (fun x => match x with | Json.str s => s = "composerId" | _ => false) then
      .error (.otherError "list indices must be integers")
    else .ok none
  | _ => .error (.otherError "argument of type is not iterable")

/-- Left-to-right traversal of the members, collecting identifiers and
propagating dynamic faults. -/
def collectComposerIds : List Json → Except QErr (List Json)
  | [] => .ok []
  | m :: rest =>
    match composerOf m with
    | .error e => .error e
    | .ok none => collectComposerIds rest
    | .ok (some v) =>
      match collectComposerIds rest with
      | .error e => .error e
      | .ok l => .ok (v :: l)

/-- Iterating `composer_data["allComposers"]` when the membership test
succeeded: a JSON array is traversed; a string iterates its characters (each
a one-character string, none containing `composerId`, so nothing collects);
a dict iterates its keys; other values are not iterable. -/
def iterAllComposers (v : Json) : Except QErr (List Json) :=
  match v with
  | Json.arr xs => collectComposerIds xs
  | Json.str _ => .ok []
  | Json.obj fields =>
    if fields.any (fun f => substrCS "composerId" f.1) then
      .error (.otherError "string indices must be integers")
    else .ok []
  | _ => .error (.otherError "is not iterable")

/-- `CursorDBManager.get_composer_ids`: `get_by_key` with the composer-index
key, then (when data exists) the `allComposers` membership test and the
extraction loop. -/
def get_composer_ids (st : ManagerState) (fs : FS) (project_name : String) :
    Except QErr ComposerIds :=
  match List.lookup project_name st.db_paths with
  | none => .error (.valueError ("Project " ++ project_name ++ " not found"))
  | some _ =>
    match execute_query st fs project_name "ItemTable" "get_by_key"
        (some "composer.composerData") 100 with
    | .error e => .error e
    | .ok [] => .ok (.errObj "No composer data found for this project")
    | .ok (r :: _) =>
      match pyContains "allComposers" r.value with
      | .error e => .error e
      | .ok false => .ok (.ids [] r.value)
      | .ok true =>
        match r.value with
        | .json (Json.obj fields) =>
          match objGet fields "allComposers" with
          | some v =>
            match iterAllComposers v with
            | .error e => .error e
            | .ok l => .ok (.ids l r.value)
          | none => .ok (.ids [] r.value)
        | .json (Json.arr _) => .error (.otherError "list indices must be integers")
        | .json (Json.str s) =>
          if substrCS "allComposers" s then
            .error (.otherError "string indices must be integers")
          else .ok (.ids [] (QVal.json (Json.str s)))
        | .str s =>
          if substrCS "allComposers" s then
            .error (.otherError "string indices must be integers")
          else .ok (.ids [] (QVal.str s))
        | .json _ => .error (.otherError "is not iterable")

/-- Result of `get_composer_data` when it does not raise. -/
inductive ComposerData where
  | data : String → QVal → ComposerData
  | errObj : String → ComposerData

/-- `CursorDBManager.get_composer_data`: requires a discovered global store,
fetches the first `cursorDiskKV` row whose key is `composerData:<id>`, and
applies the same decode-or-raw fallback; no row yields the soft error dict. -/
def get_composer_data (st : ManagerState) (fs : FS) (composer_id : String) :
    Except QErr ComposerData :=
  match st.global_db_path with
  | none => .error (.valueError "Global storage database not found")
  | some gp =>
    match fs.dbFile gp with
    | none => .error (.sqliteError ("unable to open database file " ++ gp))
    | some store =>
      let k := "composerData:" ++ composer_id
      match (store.cursorDiskKV.filter (fun r => r.1 = k)).head? with
      | some r =>
        match loads r.2 with
        | some j => .ok (.data composer_id (QVal.json j))
        | none => .ok (.data composer_id (QVal.str r.2))
      | none => .ok (.errObj ("No data found for composer ID: " ++ composer_id))

/-- One entry of the `query_table` tool's reply: a result row or the
`{"error": ...}` record produced by the except clauses. -/
inductive ToolRow where
  | row : QRecord → ToolRow
  | err : String → ToolRow

/-- Message rendering of the exceptions caught by `query_table`. -/
def queryTableMsg (e : QErr) : String :=
  match e with
  | .valueError m => m
  | .sqliteError m => "Database error: " ++ m
  | .otherError m => m

/-- MCP tool `query_table`: delegates to `execute_query`, converting
`ValueError` and `sqlite3.Error` into a single `{"error": ...}` record. -/
def query_table (st : ManagerState) (fs : FS) (project_name table_name
    query_type : String) (key : Option String) (limit : Int) : List ToolRow :=
  match execute_query st fs project_name table_name query_type key limit with
  | .ok rows => rows.map ToolRow.row
  | .error e => [ToolRow.err (queryTableMsg e)]

/-- Reply record of the `refresh_databases` tool. -/
structure RefreshReply where
  message : String
  projects : List (String × String)

/-- MCP tool `refresh_databases`: re-runs discovery and reports the flat map. -/
def refresh_databases (st : ManagerState) (fs : FS) :
    ManagerState × RefreshReply :=
  let st2 := refresh_db_paths st fs
  (st2, ⟨"Database paths refreshed", st2.db_paths⟩)

/-- Boundary output of the three resource handlers: success payload or the
`{"error": ...}` record. -/
inductive ResourceOut (α : Type) where
  | ok : α → ResourceOut α
  | err : String → ResourceOut α

/-- Wrapper messages: `ValueError` text passes through, any other exception
is prefixed, as in the resource handlers' except clauses. -/
def resourceMsg (ctx : String) (e : QErr) : String :=
  match e with
  | .valueError m => m
  | .sqliteError m => ctx ++ m
  | .otherError m => ctx ++ m

/-- Resource `cursor://projects/{project_name}/chat`. -/
def get_project_chat_data (st : ManagerState) (fs : FS) (project_name : String) :
    ResourceOut SoftVal :=
  match get_chat_data st fs project_name with
  | .ok v => .ok v
  | .error e => .err (resourceMsg "Error retrieving chat data: " e)

/-- Resource `cursor://projects/{project_name}/composers`. -/
def get_project_composer_ids (st : ManagerState) (fs : FS)
    (project_name : String) : ResourceOut ComposerIds :=
  match get_composer_ids st fs project_name with
  | .ok v => .ok v
  | .error e => .err (resourceMsg "Error retrieving composer data: " e)

/-- Resource `cursor://composers/{composer_id}`. -/
def get_composer_data_resource (st : ManagerState) (fs : FS)
    (composer_id : String) : ResourceOut ComposerData :=
  match get_composer_data st fs composer_id with
  | .ok v => .ok v
  | .error e => .err (resourceMsg "Error retrieving composer data: " e)

/-! ### Specification-side definitions

The definitions below phrase the spec's wording (case-insensitive substring
match, registry-map factorization, consistency invariant) so that the
theorems compare them with the source-derived functions above. -/

/-- Substring containment under ASCII case folding — the comparison SQLite's
default `LIKE` actually performs on wildcard-free needles. -/
def containsCI (needle hay : String) : Bool :=
  occursIn (needle.data.map lowerA) (hay.data.map lowerA)

/-- A pattern fragment free of the `LIKE` wildcards `%` and `_`. -/
def noWild (k : String) : Prop :=
  ∀ c ∈ k.data, c ≠ '%' ∧ c ≠ '_'

instance (k : String) : Decidable (noWild k) := by
  unfold noWild; infer_instance

/-- Whether a query outcome is the `InvalidArgumentError` of the spec
(Python `ValueError`). -/
def isInvalidArg (r : Except QErr (List QRecord)) : Bool :=
  match r with
  | .error (.valueError _) => true
  | _ => false

/-- The spec's decode-or-fallback contract for one row value relative to the
stored raw text. -/
def decodedFrom (raw : String) (v : QVal) : Prop :=
  (∃ j, loads raw = some j ∧ v = QVal.json j) ∨ (loads raw = none ∧ v = QVal.str raw)

/-- The store path contributed for name `n` by the last explicitly
configured directory whose resolved base name is `n` and whose store file
exists. -/
def lastHit (fs : FS) (n : String) (dirs : List String) : Option String :=
  (dirs.filterMap (fun dir =>
    let pp := fs.resolve dir
    let dbp := pp ++ "/state.vscdb"
    if fs.pathExists dbp ∧ baseName pp = n then some dbp else none)).getLast?

/-- Pure fold of the scanned projects over a pair of maps. -/
def scanMaps (l : List ProjectInfo)
    (m : List (String × String) × List (String × ProjectInfo)) :
    List (String × String) × List (String × ProjectInfo) :=
  l.foldl (fun m2 p => (dictInsert p.name p.db_path m2.1, dictInsert p.name p m2.2)) m

/-- Pure fold of the explicit directories over a pair of maps. -/
def explMaps (fs : FS) (dirs : List String)
    (m : List (String × String) × List (String × ProjectInfo)) :
    List (String × String) × List (String × ProjectInfo) :=
  dirs.foldl (fun m2 dir =>
    let pp := fs.resolve dir
    let dbp := pp ++ "/state.vscdb"
    if fs.pathExists dbp then
      (dictInsert (baseName pp) dbp m2.1,
       dictInsert (baseName pp) ⟨baseName pp, dbp, none, none⟩ m2.2)
    else m2) m

/-- The registry maps determined by the configuration and filesystem alone. -/
def refreshMaps (cp : Option String) (dirs : List String) (fs : FS) :
    List (String × String) × List (String × ProjectInfo) :=
  explMaps fs dirs
    (match cp with
     | none => ([], [])
     | some c => scanMaps (detect_cursor_projects c fs) ([], []))

/-- Registry consistency: the flat map is exactly the detailed map projected
to its `db_path` field. -/
def Consistent (st : ManagerState) : Prop :=
  st.db_paths = st.projects_info.map (fun e => (e.1, e.2.db_path))

/-! ### Concrete fixtures used by counterexamples and witnesses -/

/-- A filesystem with nothing on it. -/
def fsEmpty : FS :=
  ⟨fun _ => false, fun _ => false, fun _ => [], fun _ => none, fun p => p,
   fun _ => none⟩

/-- A filesystem whose only store file is `/db`, with the given content. -/
def fsDb (store : Store) : FS :=
  { fsEmpty with dbFile := fun p => if p = "/db" then some store else none }

/-- A registry knowing the single project `my-app` at `/db`. -/
def mgrQ : ManagerState :=
  ⟨none, [], [("my-app", "/db")], [("my-app", ⟨"my-app", "/db", none, none⟩)],
   none⟩

/-- Filesystem of the override scenario: root `/r` has one scanned workspace
`w1` whose descriptor names `my-app`, and an explicit directory `/e/my-app`
holds its own store. -/
def fs5 : FS where
  pathExists := fun p =>
    p == "/r" || p == "/r/workspaceStorage" ||
    p == "/r/workspaceStorage/w1/workspace.json" ||
    p == "/r/workspaceStorage/w1/state.vscdb" ||
    p == "/e/my-app/state.vscdb"
  isDir := fun p => p == "/r/workspaceStorage/w1"
  listDir := fun p =>
    if p == "/r/workspaceStorage" then ["/r/workspaceStorage/w1"] else []
  readFile := fun p =>
    if p == "/r/workspaceStorage/w1/workspace.json" then
      some "\x7b\"folder\": \"file:///home/u/code/my-app\"\x7d"
    else none
  resolve := fun p => p
  dbFile := fun _ => none

/-- Manager configured with the root and the explicit directory of the
override scenario. -/
def st5 : ManagerState := ⟨some "/r", ["/e/my-app"], [], [], none⟩

/-! ### Registry lemmas -/

theorem lookup_cons_pair {α : Type} (k a : String) (b : α)
    (t : List (String × α)) :
    List.lookup k ((a, b) :: t) = if k = a then some b else List.lookup k t := by
  by_cases h : k = a
  · have hb : (k == a) = true := by simp [h]
    simp [List.lookup, hb, h]
  · have hb : (k == a) = false := by simp [h]
    simp [List.lookup, hb, h]

theorem lookup_dictInsert_self {α : Type} (k : String) (v : α)
    (l : List (String × α)) : List.lookup k (dictInsert k v l) = some v := by
  induction l with
  | nil => simp [dictInsert, lookup_cons_pair]
  | cons e t ih =>
    obtain ⟨a, b⟩ := e
    by_cases h : a = k
    · simp [dictInsert, h, lookup_cons_pair]
    · simp [dictInsert, h, lookup_cons_pair, Ne.symm h, ih]

theorem lookup_dictInsert_ne {α : Type} (k k2 : String) (v : α)
    (l : List (String × α)) (h : k ≠ k2) :
    List.lookup k (dictInsert k2 v l) = List.lookup k l := by
  induction l with
  | nil => simp [dictInsert, lookup_cons_pair, h]
  | cons e t ih =>
    obtain ⟨a, b⟩ := e
    by_cases h2 : a = k2
    · subst h2
      simp [dictInsert, lookup_cons_pair, h]
    · by_cases h3 : k = a
      · simp [dictInsert, h2, lookup_cons_pair, h3]
      · simp [dictInsert, h2, lookup_cons_pair, h3, ih]

theorem dictInsert_proj (n : String) (p : ProjectInfo)
    (l : List (String × ProjectInfo)) :
    dictInsert n p.db_path (l.map (fun e => (e.1, e.2.db_path))) =
      (dictInsert n p l).map (fun e => (e.1, e.2.db_path)) := by
  induction l with
  | nil => simp [dictInsert]
  | cons e t ih =>
    by_cases h : e.1 = n
    · simp [dictInsert, h]
    · simp [dictInsert, h, ih]

theorem scanFold_fields (l : List ProjectInfo) (acc : ManagerState) :
    (l.foldl scanStep acc).cursor_path = acc.cursor_path ∧
    (l.foldl scanStep acc).project_dirs = acc.project_dirs ∧
    (l.foldl scanStep acc).global_db_path = acc.global_db_path ∧
    (l.foldl scanStep acc).db_paths = (scanMaps l (acc.db_paths, acc.projects_info)).1 ∧
    (l.foldl scanStep acc).projects_info = (scanMaps l (acc.db_paths, acc.projects_info)).2 := by
  induction l generalizing acc with
  | nil => simp [scanMaps]
  | cons p t ih =>
    have h := ih (scanStep acc p)
    simpa [scanMaps, scanStep, List.foldl_cons] using h

theorem explFold_fields (fs : FS) (dirs : List String) (acc : ManagerState) :
    (dirs.foldl (explStep fs) acc).cursor_path = acc.cursor_path ∧
    (dirs.foldl (explStep fs) acc).project_dirs = acc.project_dirs ∧
    (dirs.foldl (explStep fs) acc).global_db_path = acc.global_db_path ∧
    (dirs.foldl (explStep fs) acc).db_paths =
      (explMaps fs dirs (acc.db_paths, acc.projects_info)).1 ∧
    (dirs.foldl (explStep fs) acc).projects_info =
      (explMaps fs dirs (acc.db_paths, acc.projects_info)).2 := by
  induction dirs generalizing acc with
  | nil => simp [explMaps]
  | cons d t ih =>
    have h := ih (explStep fs acc d)
    by_cases hx : fs.pathExists (fs.resolve d ++ "/state.vscdb")
    · simpa [explMaps, explStep, hx, List.foldl_cons] using h
    · simpa [explMaps, explStep, hx, List.foldl_cons] using h

theorem refresh_factor (st : ManagerState) (fs : FS) :
    (refresh_db_paths st fs).db_paths = (refreshMaps st.cursor_path st.project_dirs fs).1 ∧
    (refresh_db_paths st fs).projects_info =
      (refreshMaps st.cursor_path st.project_dirs fs).2 ∧
    (refresh_db_paths st fs).cursor_path = st.cursor_path ∧
    (refresh_db_paths st fs).project_dirs = st.project_dirs ∧
    (refresh_db_paths st fs).global_db_path =
      (match st.cursor_path with
       | none => st.global_db_path
       | some cp =>
         if fs.pathExists (globalPath cp) then some (globalPath cp)
         else st.global_db_path) := by
  unfold refresh_db_paths refreshMaps
  cases hcp : st.cursor_path with
  | none =>
    have h := explFold_fields fs st.project_dirs { st with db_paths := [], projects_info := [] }
    simp_all
  | some cp =>
    by_cases hg : fs.pathExists (globalPath cp)
    · have hs := scanFold_fields (detect_cursor_projects cp fs)
        { st with db_paths := [], projects_info := [] }
      have he := explFold_fields fs
        ((detect_cursor_projects cp fs).foldl scanStep
          { st with db_paths := [], projects_info := [] }).project_dirs
        { (detect_cursor_projects cp fs).foldl scanStep
            { st with db_paths := [], projects_info := [] } with
          global_db_path := some (globalPath cp) }
      simp_all
    · have hs := scanFold_fields (detect_cursor_projects cp fs)
        { st with db_paths := [], projects_info := [] }
      have he := explFold_fields fs
        ((detect_cursor_projects cp fs).foldl scanStep
          { st with db_paths := [], projects_info := [] }).project_dirs
        ((detect_cursor_projects cp fs).foldl scanStep
          { st with db_paths := [], projects_info := [] })
      simp_all

theorem scanMaps_proj (l : List ProjectInfo)
    (m : List (String × String) × List (String × ProjectInfo))
    (h : m.1 = m.2.map (fun e => (e.1, e.2.db_path))) :
    (scanMaps l m).1 = (scanMaps l m).2.map (fun e => (e.1, e.2.db_path)) := by
  induction l generalizing m with
  | nil => simpa [scanMaps] using h
  | cons p t ih =>
    have step : (dictInsert p.name p.db_path m.1, dictInsert p.name p m.2).1 =
        (dictInsert p.name p.db_path m.1, dictInsert p.name p m.2).2.map
          (fun e => (e.1, e.2.db_path)) := by
      simp only [h]
      exact dictInsert_proj p.name p m.2
    simpa [scanMaps, List.foldl_cons] using ih _ step

theorem explMaps_proj (fs : FS) (dirs : List String)
    (m : List (String × String) × List (String × ProjectInfo))
    (h : m.1 = m.2.map (fun e => (e.1, e.2.db_path))) :
    (explMaps fs dirs m).1 =
      (explMaps fs dirs m).2.map (fun e => (e.1, e.2.db_path)) := by
  induction dirs generalizing m with
  | nil => simpa [explMaps] using h
  | cons d t ih =>
    by_cases hx : fs.pathExists (fs.resolve d ++ "/state.vscdb")
    · have step :
          (dictInsert (baseName (fs.resolve d)) (fs.resolve d ++ "/state.vscdb") m.1,
           dictInsert (baseName (fs.resolve d))
             (⟨baseName (fs.resolve d), fs.resolve d ++ "/state.vscdb", none, none⟩ :
               ProjectInfo) m.2).1 =
          (dictInsert (baseName (fs.resolve d)) (fs.resolve d ++ "/state.vscdb") m.1,
           dictInsert (baseName (fs.resolve d))
             (⟨baseName (fs.resolve d), fs.resolve d ++ "/state.vscdb", none, none⟩ :
               ProjectInfo) m.2).2.map (fun e => (e.1, e.2.db_path)) := by
        simp only [h]
        exact dictInsert_proj (baseName (fs.resolve d))
          ⟨baseName (fs.resolve d), fs.resolve d ++ "/state.vscdb", none, none⟩ m.2
      simpa [explMaps, List.foldl_cons, hx] using ih _ step
    · simpa [explMaps, List.foldl_cons, hx] using ih _ h

theorem refreshMaps_proj (cp : Option String) (dirs : List String) (fs : FS) :
    (refreshMaps cp dirs fs).1 =
      (refreshMaps cp dirs fs).2.map (fun e => (e.1, e.2.db_path)) := by
  unfold refreshMaps
  cases cp with
  | none => exact explMaps_proj fs dirs ([], []) (by simp)
  | some c =>
    exact explMaps_proj fs dirs _
      (scanMaps_proj (detect_cursor_projects c fs) ([], []) (by simp))

theorem lookup_map_proj (n : String) (l : List (String × ProjectInfo)) :
    List.lookup n (l.map (fun e => (e.1, e.2.db_path))) =
      (List.lookup n l).map ProjectInfo.db_path := by
  induction l with
  | nil => simp [List.lookup]
  | cons e t ih =>
    obtain ⟨a, b⟩ := e
    by_cases h : n = a
    · simp [lookup_cons_pair, h]
    · simp [lookup_cons_pair, h, ih]

theorem explMaps_lookup (fs : FS) (dirs : List String) (n : String)
    (m : List (String × String) × List (String × ProjectInfo)) :
    List.lookup n (explMaps fs dirs m).1 =
      (match lastHit fs n dirs with
       | some p => some p
       | none => List.lookup n m.1) := by
  induction dirs generalizing m with
  | nil => simp [explMaps, lastHit]
  | cons d t ih =>
    by_cases hx : fs.pathExists (fs.resolve d ++ "/state.vscdb")
    · by_cases hn : baseName (fs.resolve d) = n
      · cases hL : List.filterMap (fun dir =>
            if fs.pathExists (fs.resolve dir ++ "/state.vscdb") ∧
                baseName (fs.resolve dir) = n
            then some (fs.resolve dir ++ "/state.vscdb") else none) t with
        | nil =>
          have hlt : lastHit fs n t = none := by simp [lastHit, hL]
          have hIH := ih (dictInsert (baseName (fs.resolve d))
              (fs.resolve d ++ "/state.vscdb") m.1,
            dictInsert (baseName (fs.resolve d))
              (⟨baseName (fs.resolve d), fs.resolve d ++ "/state.vscdb", none, none⟩ :
                ProjectInfo) m.2)
          rw [hlt] at hIH
          have hcons : lastHit fs n (d :: t) =
              some (fs.resolve d ++ "/state.vscdb") := by
            simp [lastHit, List.filterMap_cons, hx, hn, hL]
          rw [hcons]
          calc List.lookup n (explMaps fs (d :: t) m).1
              = List.lookup n (dictInsert (baseName (fs.resolve d))
                  (fs.resolve d ++ "/state.vscdb") m.1) := by
                simpa [explMaps, List.foldl_cons, hx] using hIH
            _ = some (fs.resolve d ++ "/state.vscdb") := by
                rw [hn]; exact lookup_dictInsert_self n _ m.1
        | cons x L2 =>
          cases hg : (x :: L2).getLast? with
          | none => exact absurd (List.getLast?_eq_none_iff.mp hg) (by simp)
          | some y =>
            have hlt : lastHit fs n t = some y := by simp [lastHit, hL, hg]
            have hcons : lastHit fs n (d :: t) = some y := by
              simp [lastHit, List.filterMap_cons, hx, hn, hL,
                List.getLast?_cons_cons, hg]
            have hIH := ih (dictInsert (baseName (fs.resolve d))
                (fs.resolve d ++ "/state.vscdb") m.1,
              dictInsert (baseName (fs.resolve d))
                (⟨baseName (fs.resolve d), fs.resolve d ++ "/state.vscdb", none, none⟩ :
                  ProjectInfo) m.2)
            rw [hlt] at hIH
            rw [hcons]
            simpa [explMaps, List.foldl_cons, hx] using hIH
      · have hcons : lastHit fs n (d :: t) = lastHit fs n t := by
          simp [lastHit, List.filterMap_cons, hx, hn]
        have hIH := ih (dictInsert (baseName (fs.resolve d))
            (fs.resolve d ++ "/state.vscdb") m.1,
          dictInsert (baseName (fs.resolve d))
            (⟨baseName (fs.resolve d), fs.resolve d ++ "/state.vscdb", none, none⟩ :
              ProjectInfo) m.2)
        rw [hcons]
        have hlk : List.lookup n (dictInsert (baseName (fs.resolve d))
            (fs.resolve d ++ "/state.vscdb") m.1) = List.lookup n m.1 :=
          lookup_dictInsert_ne n _ _ m.1 (fun hh => hn hh.symm)
        cases hlt : lastHit fs n t with
        | none =>
          rw [hlt, hlk] at hIH
          simpa [explMaps, List.foldl_cons, hx] using hIH
        | some y =>
          rw [hlt] at hIH
          simpa [explMaps, List.foldl_cons, hx] using hIH
    · have hcons : lastHit fs n (d :: t) = lastHit fs n t := by
        simp [lastHit, List.filterMap_cons, hx]
      rw [hcons]
      have hIH := ih m
      simpa [explMaps, List.foldl_cons, hx] using hIH

/-! ### Claims about the registry (C2, C5, C6, C10) -/

/-- Claim C2, counterexample: the claim says a global store path recorded by
an earlier pass is cleared when the store is no longer found, but
`refresh_db_paths` only ever assigns `global_db_path` when the store exists;
on a filesystem with nothing on it the stale path `/stale` survives the
refresh. -/
theorem claim_C2_counterexample :
    (refresh_db_paths
      ⟨some "/root", [], [("zombie", "/z")],
       [("zombie", ⟨"zombie", "/z", none, none⟩)], some "/stale"⟩
      fsEmpty).global_db_path = some "/stale" ∧
    fsEmpty.pathExists (globalPath "/root") = false :=
  ⟨rfl, rfl⟩

/-- Claim C2 (amended): after `refresh()`, the flat and detailed maps are
derived solely from the current filesystem and configuration — no map entry
survives from before the call — but the global store path is only
overwritten when a global store is found under the current root; when none
is found (or no root is configured) the previously recorded path persists. -/
theorem claim_C2_refresh_replaces (st1 st2 : ManagerState) (fs : FS)
    (hcp : st1.cursor_path = st2.cursor_path)
    (hpd : st1.project_dirs = st2.project_dirs) :
    (refresh_db_paths st1 fs).db_paths = (refresh_db_paths st2 fs).db_paths ∧
    (refresh_db_paths st1 fs).projects_info =
      (refresh_db_paths st2 fs).projects_info ∧
    (refresh_db_paths st1 fs).global_db_path =
      (match st1.cursor_path with
       | none => st1.global_db_path
       | some cp =>
         if fs.pathExists (globalPath cp) then some (globalPath cp)
         else st1.global_db_path) := by
  obtain ⟨h1, h2, _, _, h5⟩ := refresh_factor st1 fs
  obtain ⟨g1, g2, _, _, _⟩ := refresh_factor st2 fs
  refine ⟨?_, ?_, h5⟩
  · rw [h1, g1, hcp, hpd]
  · rw [h2, g2, hcp, hpd]

/-- Witness for C2 (amended): a registry holding junk maps and a stale
global path, refreshed over `fs5`, yields the same maps as a clean registry
with the same configuration, and the global path follows the
found-or-persist rule. -/
theorem claim_C2_witness :
    (refresh_db_paths ⟨some "/r", [], [("junk", "/j")], [], some "/g"⟩ fs5).db_paths =
      (refresh_db_paths ⟨some "/r", [], [], [], none⟩ fs5).db_paths ∧
    (refresh_db_paths ⟨some "/r", [], [("junk", "/j")], [], some "/g"⟩ fs5).projects_info =
      (refresh_db_paths ⟨some "/r", [], [], [], none⟩ fs5).projects_info ∧
    (refresh_db_paths ⟨some "/r", [], [("junk", "/j")], [], some "/g"⟩ fs5).global_db_path =
      (if fs5.pathExists (globalPath "/r") then some (globalPath "/r")
       else some "/g") :=
  claim_C2_refresh_replaces
    ⟨some "/r", [], [("junk", "/j")], [], some "/g"⟩
    ⟨some "/r", [], [], [], none⟩ fs5 rfl rfl

/-- Claim C6: with an unchanged filesystem, a second `refresh()` yields flat
and detailed maps identical to those after the first. -/
theorem claim_C6_refresh_idempotent (st : ManagerState) (fs : FS) :
    (refresh_db_paths (refresh_db_paths st fs) fs).db_paths =
      (refresh_db_paths st fs).db_paths ∧
    (refresh_db_paths (refresh_db_paths st fs) fs).projects_info =
      (refresh_db_paths st fs).projects_info := by
  obtain ⟨h1, h2, h3, h4, _⟩ := refresh_factor st fs
  obtain ⟨g1, g2, _, _, _⟩ := refresh_factor (refresh_db_paths st fs) fs
  constructor
  · rw [g1, h3, h4, h1]
  · rw [g2, h3, h4, h2]

/-- Claim C10: after construction and after every refresh the flat map and
the detailed map have the same key sequence, and the flat entry of every
name is exactly the detailed record's `db_path`. (`list_projects` and
`execute_query` are read-only functions of the state in this embedding, so
every operation preserves the invariant.) -/
theorem claim_C10_registry_consistent (st : ManagerState) (fs : FS)
    (cp : Option String) (dirs : List String) :
    Consistent (refresh_db_paths st fs) ∧
    (refresh_db_paths st fs).db_paths.map Prod.fst =
      (refresh_db_paths st fs).projects_info.map Prod.fst ∧
    (∀ n, List.lookup n (refresh_db_paths st fs).db_paths =
      (List.lookup n (refresh_db_paths st fs).projects_info).map
        ProjectInfo.db_path) ∧
    Consistent (initManager cp dirs fs) := by
  obtain ⟨h1, h2, _, _, _⟩ := refresh_factor st fs
  have hc : (refresh_db_paths st fs).db_paths =
      (refresh_db_paths st fs).projects_info.map (fun e => (e.1, e.2.db_path)) := by
    rw [h1, h2]; exact refreshMaps_proj _ _ fs
  refine ⟨hc, ?_, ?_, ?_⟩
  · rw [hc]
    simp [List.map_map, Function.comp]
  · intro n
    rw [hc]
    exact lookup_map_proj n _
  · obtain ⟨i1, i2, _, _, _⟩ := refresh_factor ⟨cp, dirs, [], [], none⟩ fs
    show (initManager cp dirs fs).db_paths =
      (initManager cp dirs fs).projects_info.map (fun e => (e.1, e.2.db_path))
    unfold initManager
    rw [i1, i2]
    exact refreshMaps_proj _ _ fs

/-- Claim C5: whenever some explicitly configured directory contributes name
`n` (its resolved base name) with an existing store, the registry after
`refresh()` associates `n` with that explicit store path in both maps —
explicit entries are folded in after the scan entries and win every
collision, later explicit entries winning over earlier ones. -/
theorem claim_C5_explicit_overrides (st : ManagerState) (fs : FS) (n p : String)
    (h : lastHit fs n st.project_dirs = some p) :
    List.lookup n (refresh_db_paths st fs).db_paths = some p ∧
    (List.lookup n (refresh_db_paths st fs).projects_info).map
      ProjectInfo.db_path = some p := by
  obtain ⟨h1, h2, _, _, _⟩ := refresh_factor st fs
  have hc : (refresh_db_paths st fs).db_paths =
      (refresh_db_paths st fs).projects_info.map (fun e => (e.1, e.2.db_path)) := by
    rw [h1, h2]; exact refreshMaps_proj _ _ fs
  have flat : List.lookup n (refresh_db_paths st fs).db_paths = some p := by
    rw [h1]
    unfold refreshMaps
    cases hcp : st.cursor_path with
    | none => rw [explMaps_lookup]; simp [h]
    | some c => rw [explMaps_lookup]; simp [h]
  refine ⟨flat, ?_⟩
  rw [← lookup_map_proj, ← hc]
  exact flat

/-- Witness for C5: in the override scenario the directory scan itself
derives the name `my-app` from workspace `w1`, and after refresh both maps
send `my-app` to the explicit directory's store `/e/my-app/state.vscdb`. -/
theorem claim_C5_witness :
    detect_cursor_projects "/r" fs5 =
      [⟨"my-app", "/r/workspaceStorage/w1/state.vscdb",
        some "/r/workspaceStorage/w1", some "file:///home/u/code/my-app"⟩] ∧
    List.lookup "my-app" (refresh_db_paths st5 fs5).db_paths =
      some "/e/my-app/state.vscdb" ∧
    (List.lookup "my-app" (refresh_db_paths st5 fs5).projects_info).map
      ProjectInfo.db_path = some "/e/my-app/state.vscdb" :=
  ⟨rfl, claim_C5_explicit_overrides st5 fs5 "my-app" "/e/my-app/state.vscdb" rfl⟩

/-! ### Correctness of the `LIKE` model on wildcard-free needles -/

theorem likeMF_allPct (s : List Char) : ∀ f, s.length + 1 < f →
    likeMF f ['%'] s = true := by
  induction s with
  | nil =>
    intro f h
    obtain ⟨g, rfl⟩ : ∃ g, f = g + 2 := ⟨f - 2, by omega⟩
    simp [likeMF]
  | cons c s2 ih =>
    intro f h
    obtain ⟨g, rfl⟩ : ∃ g, f = g + 1 := ⟨f - 1, by omega⟩
    have h2 : s2.length + 1 < g := by
      simp only [List.length_cons] at h
      omega
    simp [likeMF, ih g h2]

theorem likeMF_tailPct (k : List Char) : ∀ f s,
    (∀ c ∈ k, c ≠ '%' ∧ c ≠ '_') → k.length + s.length + 1 < f →
    likeMF f (k ++ ['%']) s = startsWith (k.map lowerA) (s.map lowerA) := by
  induction k with
  | nil =>
    intro f s _ h
    have := likeMF_allPct s f (by simpa using h)
    simpa [startsWith] using this
  | cons c k2 ih =>
    intro f s hw h
    obtain ⟨hc1, hc2⟩ := hw c (by simp)
    obtain ⟨g, rfl⟩ : ∃ g, f = g + 1 := ⟨f - 1, by omega⟩
    have hw2 : ∀ x ∈ k2, x ≠ '%' ∧ x ≠ '_' := fun x hx => hw x (by simp [hx])
    cases s with
    | nil => simp [likeMF, hc1, startsWith]
    | cons d s2 =>
      have h2 : k2.length + s2.length + 1 < g := by
        simp only [List.length_cons] at h
        omega
      simp [likeMF, hc1, hc2, startsWith, ih g s2 hw2 h2]

theorem likeMF_sub (k : List Char) (hw : ∀ c ∈ k, c ≠ '%' ∧ c ≠ '_') :
    ∀ s f, k.length + s.length + 2 < f →
    likeMF f ('%' :: (k ++ ['%'])) s = occursIn (k.map lowerA) (s.map lowerA) := by
  intro s
  induction s with
  | nil =>
    intro f h
    obtain ⟨g, rfl⟩ : ∃ g, f = g + 1 := ⟨f - 1, by omega⟩
    have ht := likeMF_tailPct k g [] hw (by simpa using (by omega : k.length + 1 < g))
    simp only [likeMF, occursIn]
    simpa using ht
  | cons c s2 ih =>
    intro f h
    obtain ⟨g, rfl⟩ : ∃ g, f = g + 1 := ⟨f - 1, by omega⟩
    have hb : k.length + (c :: s2).length + 1 < g := by
      simp only [List.length_cons] at h ⊢
      omega
    have ht := likeMF_tailPct k g (c :: s2) hw hb
    have hi := ih g (by simp only [List.length_cons] at h; omega)
    simp only [likeMF, occursIn, List.map_cons]
    rw [ht, hi]
    simp [startsWith, occursIn]

theorem likeMatch_eq_containsCI (k s : String) (hw : noWild k) :
    likeMatch ("%" ++ k ++ "%") s = containsCI k s := by
  unfold likeMatch likeM containsCI
  have hd : ("%" ++ k ++ "%").data = '%' :: (k.data ++ ['%']) := by
    have h1 : ("%" : String).data = ['%'] := rfl
    simp [String.data_append, h1]
  rw [hd]
  have hlen : ('%' :: (k.data ++ ['%'])).length = k.data.length + 2 := by simp
  rw [hlen]
  exact likeMF_sub k.data hw s.data _ (by omega)

/-! ### Claims about the query engine (C1, C4, C7, C8, C9) -/

theorem keyTruthy_some_ne (k : String) (hk : k ≠ "") :
    keyTruthy (some k) = true := by
  simp [keyTruthy, hk]

theorem execute_query_search (st : ManagerState) (fs : FS) (p t dbp : String)
    (store : Store) (k : String) (limit : Int)
    (hp : List.lookup p st.db_paths = some dbp)
    (hdb : fs.dbFile dbp = some store)
    (ht : t = "ItemTable" ∨ t = "cursorDiskKV")
    (hk : k ≠ "") :
    execute_query st fs p t "search_keys" (some k) limit =
      .ok ((limitTake limit ((tableOf store t).filter
        (fun r => likeMatch ("%" ++ k ++ "%") r.1))).map decodeRow) := by
  unfold execute_query
  rw [hp]
  dsimp only
  rw [if_neg (not_not_intro ht)]
  rw [if_neg (by decide : ¬ ("search_keys" = "get_all"))]
  rw [if_neg (by simp : ¬ ("search_keys" = "get_by_key" ∧ keyTruthy (some k) = true))]
  rw [if_pos ⟨rfl, keyTruthy_some_ne k hk⟩]
  unfold runSelect
  rw [hdb]
  rfl

/-- Claim C1 (amended): for every registered project, recognized table,
non-negative limit and non-empty key containing no `LIKE` wildcard
characters, `search_keys` returns up to `limit` rows, exactly those whose
key contains `key` as a substring under ASCII-case-insensitive comparison
(the store's default `LIKE` collation), in store order. -/
theorem claim_C1_search_keys (st : ManagerState) (fs : FS) (p t dbp : String)
    (store : Store) (k : String) (limit : Int)
    (hp : List.lookup p st.db_paths = some dbp)
    (hdb : fs.dbFile dbp = some store)
    (ht : t = "ItemTable" ∨ t = "cursorDiskKV")
    (hk : k ≠ "") (hw : noWild k) (hl : 0 ≤ limit) :
    execute_query st fs p t "search_keys" (some k) limit =
      .ok ((((tableOf store t).filter (fun r => containsCI k r.1)).take
        limit.toNat).map decodeRow) ∧
    ((((tableOf store t).filter (fun r => containsCI k r.1)).take
        limit.toNat).map decodeRow).length ≤ limit.toNat := by
  have heq := execute_query_search st fs p t dbp store k limit hp hdb ht hk
  have hfilter : (tableOf store t).filter
        (fun r => likeMatch ("%" ++ k ++ "%") r.1) =
      (tableOf store t).filter (fun r => containsCI k r.1) :=
    List.filter_congr (fun x _ => likeMatch_eq_containsCI k x.1 hw)
  have hlim : limitTake limit ((tableOf store t).filter
        (fun r => containsCI k r.1)) =
      ((tableOf store t).filter (fun r => containsCI k r.1)).take limit.toNat := by
    unfold limitTake
    rw [if_neg (by omega)]
  constructor
  · rw [heq, hfilter, hlim]
  · rw [List.length_map]
    simp [List.length_take]

/-- Claim C1, counterexample: the spec calls the `search_keys` match
case-sensitive, but the store's default `LIKE` folds ASCII case, so
searching for `chat` returns the row keyed `Chat`, which does not contain
`chat` as a case-sensitive substring. -/
theorem claim_C1_counterexample :
    execute_query mgrQ (fsDb ⟨[("Chat", "v")], []⟩) "my-app" "ItemTable"
        "search_keys" (some "chat") 10 =
      .ok [⟨"Chat", QVal.str "v"⟩] ∧
    substrCS "chat" "Chat" = false :=
  ⟨rfl, rfl⟩

/-- Witness for C1 (amended), which is exactly the spec's scenario: against
a store holding the chat-data key and `other.key`, searching `chat` with
limit 10 returns exactly one record, for the first key. -/
theorem claim_C1_witness :
    execute_query mgrQ
        (fsDb ⟨[("workbench.panel.aichat.view.aichat.chatdata", "x"),
                ("other.key", "y")], []⟩)
        "my-app" "ItemTable" "search_keys" (some "chat") 10 =
      .ok [⟨"workbench.panel.aichat.view.aichat.chatdata", QVal.str "x"⟩] ∧
    ([(⟨"workbench.panel.aichat.view.aichat.chatdata", QVal.str "x"⟩ : QRecord)]).length ≤
      (10 : Int).toNat :=
  ⟨(claim_C1_search_keys mgrQ
      (fsDb ⟨[("workbench.panel.aichat.view.aichat.chatdata", "x"),
              ("other.key", "y")], []⟩)
      "my-app" "ItemTable" "/db" _ "chat" 10 rfl rfl (Or.inl rfl)
      (by decide) (by decide) (by decide)).1.trans rfl,
   (claim_C1_search_keys mgrQ
      (fsDb ⟨[("workbench.panel.aichat.view.aichat.chatdata", "x"),
              ("other.key", "y")], []⟩)
      "my-app" "ItemTable" "/db" _ "chat" 10 rfl rfl (Or.inl rfl)
      (by decide) (by decide) (by decide)).2⟩

theorem execute_query_open (st : ManagerState) (fs : FS) (p t dbp qt : String)
    (k : Option String) (limit : Int)
    (hp : List.lookup p st.db_paths = some dbp)
    (ht : t = "ItemTable" ∨ t = "cursorDiskKV") :
    execute_query st fs p t qt k limit =
      (if qt = "get_all" then
        runSelect (fs.dbFile dbp) t (fun tbl => limitTake limit tbl)
       else if qt = "get_by_key" ∧ keyTruthy k then
        runSelect (fs.dbFile dbp) t (fun tbl =>
          tbl.filter (fun r => r.1 = k.getD ""))
       else if qt = "search_keys" ∧ keyTruthy k then
        runSelect (fs.dbFile dbp) t (fun tbl =>
          limitTake limit (tbl.filter
            (fun r => likeMatch ("%" ++ k.getD "" ++ "%") r.1)))
       else .error (.valueError "Invalid query type or missing key parameter")) := by
  unfold execute_query
  rw [hp]
  dsimp only
  rw [if_neg (not_not_intro ht)]

theorem isInvalidArg_runSelect (conn : Option Store) (t : String)
    (sel : List (String × String) → List (String × String)) :
    isInvalidArg (runSelect conn t sel) = false := by
  cases conn <;> simp [runSelect, isInvalidArg]

/-- Claim C4 (amended): for a registered project and recognized table,
`get_by_key` and `search_keys` fail with `InvalidArgumentError` exactly when
`key` is absent or the empty string (Python's `and key` tests truthiness,
not presence); with any non-empty key no `InvalidArgumentError` occurs;
`get_all` never raises one; and every query type outside the recognized
three fails with `InvalidArgumentError`. -/
theorem claim_C4_arg_validation (st : ManagerState) (fs : FS) (p t dbp : String)
    (hp : List.lookup p st.db_paths = some dbp)
    (ht : t = "ItemTable" ∨ t = "cursorDiskKV") :
    (∀ qt k limit, (qt = "get_by_key" ∨ qt = "search_keys") →
      (isInvalidArg (execute_query st fs p t qt k limit) = true ↔
        (k = none ∨ k = some ""))) ∧
    (∀ k limit, isInvalidArg (execute_query st fs p t "get_all" k limit) = false) ∧
    (∀ qt k limit, qt ≠ "get_all" → qt ≠ "get_by_key" → qt ≠ "search_keys" →
      isInvalidArg (execute_query st fs p t qt k limit) = true) := by
  refine ⟨?_, ?_, ?_⟩
  · intro qt k limit hqt
    rw [execute_query_open st fs p t dbp qt k limit hp ht]
    have hga : qt ≠ "get_all" := by
      rcases hqt with h | h <;> subst h <;> decide
    rw [if_neg hga]
    cases hkt : keyTruthy k with
    | true =>
      have hor : ¬ (k = none ∨ k = some "") := by
        cases k with
        | none => simp [keyTruthy] at hkt
        | some s =>
          have hs : s ≠ "" := by simpa [keyTruthy] using hkt
          simp [hs]
      rcases hqt with h | h <;> subst h
      · rw [if_pos ⟨rfl, rfl⟩]
        simp [isInvalidArg_runSelect, hor]
      · rw [if_neg (by simp), if_pos ⟨rfl, rfl⟩]
        simp [isInvalidArg_runSelect, hor]
    | false =>
      have hor : k = none ∨ k = some "" := by
        cases k with
        | none => exact Or.inl rfl
        | some s =>
          have hs : s = "" := by simpa [keyTruthy] using hkt
          exact Or.inr (by rw [hs])
      rw [if_neg (fun hc => absurd hc.2 (by decide)),
        if_neg (fun hc => absurd hc.2 (by decide))]
      simp [isInvalidArg, hor]
  · intro k limit
    rw [execute_query_open st fs p t dbp "get_all" k limit hp ht]
    rw [if_pos rfl]
    exact isInvalidArg_runSelect _ _ _
  · intro qt k limit h1 h2 h3
    rw [execute_query_open st fs p t dbp qt k limit hp ht]
    rw [if_neg h1, if_neg (fun hc => h2 hc.1), if_neg (fun hc => h3 hc.1)]
    simp [isInvalidArg]

/-- Claim C4, counterexample: the claim allows the empty string as a present
key, but `get_by_key` with `key=""` raises `ValueError` because the guard
tests Python truthiness. -/
theorem claim_C4_counterexample :
    isInvalidArg (execute_query mgrQ (fsDb ⟨[("a", "1")], []⟩) "my-app"
      "ItemTable" "get_by_key" (some "") 100) = true :=
  rfl

/-- Witness for C4 (amended): empty key errors, a non-empty key does not,
and an unknown query type errors. -/
theorem claim_C4_witness :
    isInvalidArg (execute_query mgrQ (fsDb ⟨[("a", "1")], []⟩) "my-app"
      "ItemTable" "get_by_key" (some "") 100) = true ∧
    isInvalidArg (execute_query mgrQ (fsDb ⟨[("a", "1")], []⟩) "my-app"
      "ItemTable" "get_by_key" (some "k") 100) = false ∧
    isInvalidArg (execute_query mgrQ (fsDb ⟨[("a", "1")], []⟩) "my-app"
      "ItemTable" "bogus" (some "k") 100) = true := by
  have h := claim_C4_arg_validation mgrQ (fsDb ⟨[("a", "1")], []⟩) "my-app"
    "ItemTable" "/db" rfl (Or.inl rfl)
  refine ⟨(h.1 "get_by_key" (some "") 100 (Or.inl rfl)).mpr (Or.inr rfl), ?_,
    h.2.2 "bogus" (some "k") 100 (by decide) (by decide) (by decide)⟩
  have h2 := h.1 "get_by_key" (some "k") 100 (Or.inl rfl)
  have hno : ¬ ((some "k" : Option String) = none ∨
      (some "k" : Option String) = some "") := by decide
  exact Bool.eq_false_iff.mpr (fun hx => hno (h2.mp hx))

/-- Claim C7 (amended): for a registered project, recognized table, present
store and non-empty key, `get_by_key` returns all rows whose key exactly
equals `key` — every match, duplicates included, for every limit — and an
empty sequence (not an error) when nothing matches. -/
theorem claim_C7_get_by_key (st : ManagerState) (fs : FS) (p t dbp : String)
    (store : Store) (k : String)
    (hp : List.lookup p st.db_paths = some dbp)
    (hdb : fs.dbFile dbp = some store)
    (ht : t = "ItemTable" ∨ t = "cursorDiskKV")
    (hk : k ≠ "") :
    ∀ limit : Int, execute_query st fs p t "get_by_key" (some k) limit =
      .ok (((tableOf store t).filter (fun r => r.1 = k)).map decodeRow) := by
  intro limit
  rw [execute_query_open st fs p t dbp "get_by_key" (some k) limit hp ht]
  rw [if_neg (by decide), if_pos ⟨rfl, keyTruthy_some_ne k hk⟩]
  unfold runSelect
  rw [hdb]
  rfl

/-- Claim C7, counterexample: the claim quantifies over every non-absent
key, but the present-and-empty key `""` makes `get_by_key` raise
`ValueError` instead of returning the empty sequence. -/
theorem claim_C7_counterexample :
    execute_query mgrQ (fsDb ⟨[("a", "1")], []⟩) "my-app" "ItemTable"
        "get_by_key" (some "") 100 =
      .error (.valueError "Invalid query type or missing key parameter") :=
  rfl

/-- Witness for C7 (amended): duplicated keys are all returned even with
limit 1, and a key matching nothing yields the empty list. -/
theorem claim_C7_witness :
    execute_query mgrQ (fsDb ⟨[("dup", "1"), ("x", "2"), ("dup", "3")], []⟩)
        "my-app" "ItemTable" "get_by_key" (some "dup") 1 =
      .ok [⟨"dup", QVal.json (Json.num 1)⟩, ⟨"dup", QVal.json (Json.num 3)⟩] ∧
    execute_query mgrQ (fsDb ⟨[("dup", "1"), ("x", "2"), ("dup", "3")], []⟩)
        "my-app" "ItemTable" "get_by_key" (some "zzz") 1 = .ok [] :=
  ⟨(claim_C7_get_by_key mgrQ (fsDb ⟨[("dup", "1"), ("x", "2"), ("dup", "3")], []⟩)
      "my-app" "ItemTable" "/db" _ "dup" rfl rfl (Or.inl rfl) (by decide) 1).trans rfl,
   (claim_C7_get_by_key mgrQ (fsDb ⟨[("dup", "1"), ("x", "2"), ("dup", "3")], []⟩)
      "my-app" "ItemTable" "/db" _ "zzz" rfl rfl (Or.inl rfl) (by decide) 1).trans rfl⟩

/-- Claim C9: for a registered project, any table name other than the two
recognized logical tables fails with `InvalidArgumentError` for every query
type and every filesystem — the result is the same fixed error whatever the
store layer holds, so no store access takes place before the failure. -/
theorem claim_C9_bad_table (st : ManagerState) (fs : FS) (p t qt : String)
    (k : Option String) (limit : Int) (dbp : String)
    (hp : List.lookup p st.db_paths = some dbp)
    (h1 : t ≠ "ItemTable") (h2 : t ≠ "cursorDiskKV") :
    execute_query st fs p t qt k limit =
      .error (.valueError "Table name must be either ItemTable or cursorDiskKV") := by
  unfold execute_query
  rw [hp]
  dsimp only
  rw [if_pos (by tauto)]

/-- Witness for C9: querying table `Wrong` on a filesystem with no store at
all still produces exactly the table-name error. -/
theorem claim_C9_witness :
    execute_query mgrQ fsEmpty "my-app" "Wrong" "get_all" none 100 =
      .error (.valueError "Table name must be either ItemTable or cursorDiskKV") :=
  claim_C9_bad_table mgrQ fsEmpty "my-app" "Wrong" "get_all" none 100 "/db" rfl
    (by decide) (by decide)

theorem limitTake_subset {α : Type} (limit : Int) (l : List α) :
    ∀ x ∈ limitTake limit l, x ∈ l := by
  intro x hx
  unfold limitTake at hx
  by_cases h : limit < 0
  · rw [if_pos h] at hx
    exact hx
  · rw [if_neg h] at hx
    exact List.take_subset _ _ hx

theorem decodedFrom_decodeRow (x : String × String) :
    (decodeRow x).key = x.1 ∧ decodedFrom x.2 (decodeRow x).value := by
  unfold decodeRow decodedFrom
  cases hl : loads x.2 with
  | none => simp [hl]
  | some j => simp [hl]

/-- Claim C8: whenever `execute_query` succeeds, every returned record pairs
a key of the selected table with a value that is either the JSON decoding of
the stored text (when it parses) or the raw text unchanged (when it does
not); the decode-or-fallback step is a total function of the stored text and
can never raise. -/
theorem claim_C8_decode_fallback (st : ManagerState) (fs : FS)
    (p t qt : String) (k : Option String) (limit : Int) (rows : List QRecord)
    (h : execute_query st fs p t qt k limit = .ok rows) :
    ∃ dbp store, List.lookup p st.db_paths = some dbp ∧
      fs.dbFile dbp = some store ∧
      ∀ r ∈ rows, ∃ raw, (r.key, raw) ∈ tableOf store t ∧
        decodedFrom raw r.value := by
  unfold execute_query at h
  cases hp : List.lookup p st.db_paths with
  | none =>
    rw [hp] at h
    exact absurd h (by simp)
  | some dbp =>
    rw [hp] at h
    dsimp only at h
    by_cases htb : ¬ (t = "ItemTable" ∨ t = "cursorDiskKV")
    · rw [if_pos htb] at h
      exact absurd h (by simp)
    · rw [if_neg htb] at h
      refine ⟨dbp, ?_⟩
      have main : ∀ sel, runSelect (fs.dbFile dbp) t sel = .ok rows →
          (∀ x l2, x ∈ sel l2 → x ∈ l2) →
          ∃ store, fs.dbFile dbp = some store ∧
            ∀ r ∈ rows, ∃ raw, (r.key, raw) ∈ tableOf store t ∧
              decodedFrom raw r.value := by
        intro sel hsel hsub
        cases hdb : fs.dbFile dbp with
        | none =>
          rw [hdb] at hsel
          exact absurd hsel (by simp [runSelect])
        | some store =>
          rw [hdb] at hsel
          unfold runSelect at hsel
          have hrows : rows = (sel (tableOf store t)).map decodeRow :=
            (Except.ok.inj hsel).symm
          refine ⟨store, rfl, ?_⟩
          intro r hr
          rw [hrows] at hr
          obtain ⟨x, hx, hxr⟩ := List.mem_map.mp hr
          refine ⟨x.2, ?_, ?_⟩
          · rw [← hxr, (decodedFrom_decodeRow x).1]
            simpa using hsub x _ hx
          · rw [← hxr]
            exact (decodedFrom_decodeRow x).2
      by_cases hga : qt = "get_all"
      · rw [if_pos hga] at h
        obtain ⟨store, hs1, hs2⟩ :=
          main _ h (fun x l2 hx => limitTake_subset limit l2 x hx)
        exact ⟨store, rfl, hs1, hs2⟩
      · rw [if_neg hga] at h
        by_cases hgb : qt = "get_by_key" ∧ keyTruthy k
        · rw [if_pos hgb] at h
          obtain ⟨store, hs1, hs2⟩ :=
            main _ h (fun x l2 hx => (List.mem_filter.mp hx).1)
          exact ⟨store, rfl, hs1, hs2⟩
        · rw [if_neg hgb] at h
          by_cases hgs : qt = "search_keys" ∧ keyTruthy k
          · rw [if_pos hgs] at h
            obtain ⟨store, hs1, hs2⟩ := main _ h (fun x l2 hx =>
              (List.mem_filter.mp (limitTake_subset limit _ x hx)).1)
            exact ⟨store, rfl, hs1, hs2⟩
          · rw [if_neg hgs] at h
            exact absurd h (by simp)

/-- Witness for C8, the spec's round trip: a stored value encoding the
mapping with `a` bound to 1 comes back as the decoded object, not the raw
text, and the claim's conclusion holds at that concrete query. -/
theorem claim_C8_witness :
    execute_query mgrQ (fsDb ⟨[("k", "\x7b\"a\": 1\x7d")], []⟩) "my-app"
        "ItemTable" "get_by_key" (some "k") 100 =
      .ok [⟨"k", QVal.json (Json.obj [("a", Json.num 1)])⟩] ∧
    (∃ dbp store, List.lookup "my-app" mgrQ.db_paths = some dbp ∧
      (fsDb ⟨[("k", "\x7b\"a\": 1\x7d")], []⟩).dbFile dbp = some store ∧
      ∀ r ∈ [(⟨"k", QVal.json (Json.obj [("a", Json.num 1)])⟩ : QRecord)],
        ∃ raw, (r.key, raw) ∈ tableOf store "ItemTable" ∧
          decodedFrom raw r.value) :=
  ⟨rfl, claim_C8_decode_fallback mgrQ (fsDb ⟨[("k", "\x7b\"a\": 1\x7d")], []⟩)
    "my-app" "ItemTable" "get_by_key" (some "k") 100
    [⟨"k", QVal.json (Json.obj [("a", Json.num 1)])⟩] rfl⟩

/-! ### Claim about the protocol boundary (C3) -/

/-- Claim C3: every protocol-facing operation is a total function returning
a plain record. `list_projects` returns the requested in-memory map;
`refresh_databases` returns the fixed message with the refreshed flat map;
`query_table` returns either mapped result rows or a single-element list
holding an `{error: ...}` record; and each of the three well-known-key
resource handlers returns either its payload or an `{error: ...}` record —
no input makes any of them raise past the boundary, every caught exception
becoming the structured error shape. -/
theorem claim_C3_boundary (st : ManagerState) (fs : FS) :
    (∀ d, list_projects st d =
      if d then Listing.detailed st.projects_info else Listing.flat st.db_paths) ∧
    ((refresh_databases st fs).2 =
      ⟨"Database paths refreshed", (refresh_db_paths st fs).db_paths⟩) ∧
    (∀ p t qt k limit,
      (∃ rows : List QRecord,
        query_table st fs p t qt k limit = rows.map ToolRow.row) ∨
      (∃ m, query_table st fs p t qt k limit = [ToolRow.err m])) ∧
    (∀ p, (∃ v, get_project_chat_data st fs p = .ok v) ∨
      (∃ m, get_project_chat_data st fs p = .err m)) ∧
    (∀ p, (∃ v, get_project_composer_ids st fs p = .ok v) ∨
      (∃ m, get_project_composer_ids st fs p = .err m)) ∧
    (∀ cid, (∃ v, get_composer_data_resource st fs cid = .ok v) ∨
      (∃ m, get_composer_data_resource st fs cid = .err m)) := by
  refine ⟨fun d => rfl, rfl, ?_, ?_, ?_, ?_⟩
  · intro p t qt k limit
    unfold query_table
    cases hq : execute_query st fs p t qt k limit with
    | ok rows => exact Or.inl ⟨rows, rfl⟩
    | error e => exact Or.inr ⟨queryTableMsg e, rfl⟩
  · intro p
    unfold get_project_chat_data
    cases hq : get_chat_data st fs p with
    | ok v => exact Or.inl ⟨v, rfl⟩
    | error e => exact Or.inr ⟨resourceMsg "Error retrieving chat data: " e, rfl⟩
  · intro p
    unfold get_project_composer_ids
    cases hq : get_composer_ids st fs p with
    | ok v => exact Or.inl ⟨v, rfl⟩
    | error e =>
      exact Or.inr ⟨resourceMsg "Error retrieving composer data: " e, rfl⟩
  · intro cid
    unfold get_composer_data_resource
    cases hq : get_composer_data st fs cid with
    | ok v => exact Or.inl ⟨v, rfl⟩
    | error e =>
      exact Or.inr ⟨resourceMsg "Error retrieving composer data: " e, rfl⟩
